import Mathlib

/-!
# Auction Lifecycle Manager — shallow embedding and verification

This file embeds the auction auto-close core of the repository
(`internal/infra/database/auction`): the admission-controlled,
timer-driven state transition engine that creates auctions with a
persisted end time, closes them when their timer fires, and reconstructs
in-flight timers from persisted state on restart.

Modelling conventions:
* Time is modelled in integer nanoseconds (`Int`), matching Go's
  `time.Duration`/`time.Time` monotonic arithmetic.  The persistence layer
  stores Unix seconds, a monotone image of the nanosecond clock; the
  claims compared here are unaffected by that truncation.
* The MongoDB collection is a `List AuctionRecord`; `InsertOne` appends,
  `UpdateOne` with a `$set` on `status` maps over the list, and `Find`
  by status filters it.  Connectivity failures of a store call are an
  explicit `Bool` parameter.
* The process environment (`os.Getenv`) is a function `String → String`
  returning `""` for unset variables.
* Mutex-protected sections of the Go code are modelled as single atomic
  steps of a transition system over the shared counter state; see
  `CounterState` below.
-/

/-- `auction_entity.AuctionStatus`: the status enum, `Active` and
`Completed`. -/
inductive AuctionStatus
  | Active
  | Completed
  deriving DecidableEq

/-- `auction_entity.Auction`: the in-memory auction entity handed to
`CreateAuction`.  `ProductCondition` is an integer enum in the source and
is carried as an opaque `Nat`.  `timestamp` is the creation time. -/
structure AuctionEntity where
  id : String
  productName : String
  category : String
  description : String
  condition : Nat
  status : AuctionStatus
  timestamp : Int
  deriving DecidableEq

/-- `AuctionEntityMongo`: the persisted record shape, with the creation
timestamp and the end time both stored. -/
structure AuctionRecord where
  id : String
  productName : String
  category : String
  description : String
  condition : Nat
  status : AuctionStatus
  timestamp : Int
  endTime : Int
  deriving DecidableEq

/-- `internal_error.InternalError` as produced by
`internal_error.NewInternalServerError`. -/
inductive InternalError
  | internalServer (message : String)
  deriving DecidableEq

/-- The error `CreateAuction` returns when `checkActiveAuctionsLimit`
denies admission. -/
def capacityLimitError : InternalError :=
  InternalError.internalServer "Maximum concurrent auctions limit reached"

/-- The error `CreateAuction` returns when the store insert fails. -/
def insertFailedError : InternalError :=
  InternalError.internalServer "Error trying to insert auction"

/-- The error `UpdateAuctionStatus` returns when the store update call
fails. -/
def updateFailedError : InternalError :=
  InternalError.internalServer "Error trying to update auction status"

/-- Effect on the store of Mongo `UpdateOne` with filter `_id = auctionId`
and update `$set status`: every record whose id matches gets the new
status; nothing else changes. -/
def mongoUpdateStatus (auctionId : String) (status : AuctionStatus)
    (store : List AuctionRecord) : List AuctionRecord :=
  store.map fun r => if r.id = auctionId then { r with status := status } else r

/-- `UpdateAuctionStatus`: runs the Mongo update; a connectivity failure
(`connFail`) surfaces as an internal error, otherwise the call succeeds —
also when no record matches the id. -/
def UpdateAuctionStatus (connFail : Bool) (auctionId : String)
    (status : AuctionStatus) (store : List AuctionRecord) :
    Except InternalError (List AuctionRecord) :=
  if connFail then Except.error updateFailedError
  else Except.ok (mongoUpdateStatus auctionId status store)

/-- The status a `FindAuctionById` on the store would report: the status
of the first record whose id matches. -/
def statusOf (store : List AuctionRecord) (auctionId : String) :
    Option AuctionStatus :=
  (store.find? fun r => r.id = auctionId).map AuctionRecord.status

/-- The records a Mongo `Find` with filter `status = Active` returns. -/
def findAllActive (store : List AuctionRecord) : List AuctionRecord :=
  store.filter fun r => r.status = AuctionStatus.Active

/-- Nanosecond value of a Go duration unit string, as in
`time.ParseDuration`'s unit map. -/
def unitValue (u : String) : Option Int :=
  if u = "ns" then some 1
  else if u = "us" then some 1000
  else if u = "µs" then some 1000
  else if u = "μs" then some 1000
  else if u = "ms" then some 1000000
  else if u = "s" then some 1000000000
  else if u = "m" then some 60000000000
  else if u = "h" then some 3600000000000
  else none

/-- Numeric value of a digit run. -/
def digitsVal (ds : List Char) : Int :=
  ds.foldl (fun acc c => acc * 10 + Int.ofNat (c.toNat - 48)) 0

/-- Component loop of Go `time.ParseDuration`: repeatedly read a digit
run followed by a unit and sum the contributions.  Restricted to integer
components (no fractional values), which covers every configuration
exercised in this development; fuelled by the input length. -/
def parseComponentsAux : Nat → List Char → Option Int
  | 0, _ => none
  | _, [] => some 0
  | fuel + 1, s =>
    let digitsPart := s.span Char.isDigit
    match digitsPart.1, digitsPart.2 with
    | [], _ => none
    | _, '.' :: _ => none
    | ds, rest =>
      let unitPart := rest.span fun c => !(c.isDigit || c == '.')
      match unitValue (String.mk unitPart.1) with
      | none => none
      | some u =>
        match parseComponentsAux fuel unitPart.2 with
        | none => none
        | some acc => some (digitsVal ds * u + acc)

/-- Model of Go `time.ParseDuration` (the external standard-library
parser `getAuctionDuration` calls), restricted to integer components: an
optional sign, the special case `0`, then digit-run/unit pairs; empty
input, a missing unit or an unknown character is a parse error (`none`).
A negative sign negates the whole duration without error. -/
def parseDuration (s : String) : Option Int :=
  let cs := s.toList
  let signSplit : Bool × List Char :=
    match cs with
    | '-' :: rest => (true, rest)
    | '+' :: rest => (false, rest)
    | rest => (false, rest)
  let body := signSplit.2
  if body = ['0'] then some 0
  else if body = [] then none
  else
    match parseComponentsAux body.length body with
    | none => none
    | some d => some (if signSplit.1 then -d else d)

/-- `getAuctionDuration`: parse the `AUCTION_INTERVAL` environment value;
on a parse error fall back to the five-minute default. -/
def getAuctionDuration (env : String → String) : Int :=
  match parseDuration (env "AUCTION_INTERVAL") with
  | none => 5 * 60000000000
  | some duration => duration

/-- `getMaxConcurrentAuctions`: the source returns the constant `50`
unconditionally; it never reads the `MAX_CONCURRENT_AUCTIONS`
configuration the repository's README documents.  The ignored
environment is kept as a parameter so that theorems can state this. -/
def getMaxConcurrentAuctions (env : String → String) : Int := 50

/-- `checkActiveAuctionsLimit`: one mutex-protected section comparing the
counter against the ceiling; it has no side effect. -/
def checkActiveAuctionsLimit (env : String → String) (count : Int) : Bool :=
  count < getMaxConcurrentAuctions env

/-- An environment with every variable unset (`os.Getenv` returns `""`). -/
def emptyEnv : String → String := fun _ => ""

/-- The record `CreateAuction` builds from the entity and the computed
end time and hands to `InsertOne`. -/
def recordOfEntity (a : AuctionEntity) (endTime : Int) : AuctionRecord :=
  { id := a.id, productName := a.productName, category := a.category,
    description := a.description, condition := a.condition,
    status := a.status, timestamp := a.timestamp, endTime := endTime }

/-- Outcome of one whole `CreateAuction` call: the returned error (if
any), the store and counter afterwards, and whether a monitor goroutine
was started. -/
structure CreateResult where
  err : Option InternalError
  store : List AuctionRecord
  count : Int
  timerArmed : Bool
  deriving DecidableEq

/-- `CreateAuction`, run to completion without interference: check the
limit (error out with no effect if reached), compute
`endTime = timestamp + getAuctionDuration`, insert the record (error out
with no effect on store failure `insertFails`), then increment the
counter and start the monitor goroutine. -/
def CreateAuction (env : String → String) (insertFails : Bool)
    (a : AuctionEntity) (store : List AuctionRecord) (count : Int) :
    CreateResult :=
  if ¬ checkActiveAuctionsLimit env count then
    { err := some capacityLimitError, store := store, count := count,
      timerArmed := false }
  else
    let auctionDuration := getAuctionDuration env
    let endTime := a.timestamp + auctionDuration
    if insertFails then
      { err := some insertFailedError, store := store, count := count,
        timerArmed := false }
    else
      { err := none, store := store ++ [recordOfEntity a endTime],
        count := count + 1, timerArmed := true }

/-- What `startIndividualAuctionMonitorWithEndTime` decides from
`remainingTime = endTime - now`: close immediately (and return without
touching the counter), or wait out the remaining time and then close and
decrement. -/
inductive MonitorAction
  | immediateClose
  | waitThenClose (wait : Int)
  deriving DecidableEq

/-- `startIndividualAuctionMonitorWithEndTime` at goroutine start:
computes the remaining time and picks the action. -/
def startIndividualAuctionMonitorWithEndTime (endTime now : Int) :
    MonitorAction :=
  if endTime - now ≤ 0 then MonitorAction.immediateClose
  else MonitorAction.waitThenClose (endTime - now)

/-- Effect on store and counter when a monitor's action runs to
completion and the status update succeeds.  The immediate-close branch
returns before the decrement; the timer branch updates the status and
then decrements the counter. -/
def applyMonitorFire (auctionId : String) (act : MonitorAction)
    (store : List AuctionRecord) (count : Int) :
    List AuctionRecord × Int :=
  match act with
  | MonitorAction.immediateClose =>
      (mongoUpdateStatus auctionId AuctionStatus.Completed store, count)
  | MonitorAction.waitThenClose _ =>
      (mongoUpdateStatus auctionId AuctionStatus.Completed store, count - 1)

/-- State of the recovery pass `handleActiveAuctionsOnRestart`: the
counter, the store, and the `(auctionId, endTime)` pairs for which a
monitor goroutine has been spawned. -/
structure RecoveryResult where
  count : Int
  store : List AuctionRecord
  pending : List (String × Int)
  deriving DecidableEq

/-- One iteration of the recovery loop: under the mutex, if the counter
is below the ceiling it is incremented and a monitor goroutine is spawned
for the record (regardless of its end time); otherwise the record is
force-closed via the status update. -/
def recoveryScanStep (env : String → String) (st : RecoveryResult)
    (a : AuctionRecord) : RecoveryResult :=
  if st.count < getMaxConcurrentAuctions env then
    { st with count := st.count + 1, pending := st.pending ++ [(a.id, a.endTime)] }
  else
    { st with store := mongoUpdateStatus a.id AuctionStatus.Completed st.store }

/-- `handleActiveAuctionsOnRestart`: scan all persisted Active records
and run the recovery loop, starting from the fresh repository's counter
value `0`. -/
def handleActiveAuctionsOnRestart (env : String → String)
    (store : List AuctionRecord) : RecoveryResult :=
  (findAllActive store).foldl (recoveryScanStep env)
    { count := 0, store := store, pending := [] }

/-- Run the immediate-close branch of every spawned
`startIndividualAuctionMonitorWithEndTime` goroutine: a monitor whose
remaining time is non-positive closes its auction at once and returns
without decrementing; a monitor with remaining time keeps waiting and is
left untouched. -/
def runOverdueAux (now : Int) (ps : List (String × Int))
    (store : List AuctionRecord) : List AuctionRecord :=
  ps.foldl
    (fun st p =>
      match startIndividualAuctionMonitorWithEndTime p.2 now with
      | MonitorAction.immediateClose =>
          mongoUpdateStatus p.1 AuctionStatus.Completed st
      | MonitorAction.waitThenClose _ => st)
    store

/-- The recovery pass followed by the bounded-delay actions of the
spawned monitors: the scan loop, then every overdue monitor's immediate
close.  Monitors with remaining time stay pending. -/
def recoveryWithOverduePhase (env : String → String) (now : Int)
    (store : List AuctionRecord) : RecoveryResult :=
  let st := handleActiveAuctionsOnRestart env store
  { st with store := runOverdueAux now st.pending st.store }

/-- The shared mutable state: `activeAuctionsCount` together with the
bookkeeping needed to enumerate interleavings — `passed` counts
`CreateAuction` callers that are past their `checkActiveAuctionsLimit`
section but have not yet reached their increment section, and `monitors`
counts armed monitor goroutines that will decrement when they fire. -/
structure CounterState where
  count : Int
  passed : Nat
  monitors : Nat
  deriving DecidableEq

/-- The mutex-delimited atomic sections touching the counter, one event
per section of the Go code:
* `check` — `checkActiveAuctionsLimit` inside `CreateAuction` (no side
  effect on the counter; on success the caller proceeds);
* `incr` — the `activeAuctionsCount++` section of `CreateAuction`, which
  also arms the caller's monitor goroutine;
* `insertFail` — a caller past the check whose `InsertOne` failed returns
  without ever incrementing;
* `fire` — a monitor goroutine whose status update succeeded runs its
  `activeAuctionsCount--` section;
* `fireFail` — a monitor goroutine whose status update failed returns
  without decrementing;
* `recoverFuture` — one recovery-loop iteration admitting a record whose
  monitor still has remaining time (atomic check-and-increment under one
  lock hold);
* `recoverOverdue` — one recovery-loop iteration admitting a record whose
  monitor finds its remaining time already elapsed: the monitor closes the
  auction and returns without decrementing, so only the increment is ever
  seen by the counter. -/
inductive CEvent
  | check
  | incr
  | insertFail
  | fire
  | fireFail
  | recoverFuture
  | recoverOverdue
  deriving DecidableEq

/-- One atomic step of the counter state.  Events whose enabling
condition fails (no caller past the check, no armed monitor, ceiling
reached in the recovery loop) leave the state unchanged. -/
def cstep (env : String → String) (s : CounterState) : CEvent → CounterState
  | CEvent.check =>
      if s.count < getMaxConcurrentAuctions env then
        { s with passed := s.passed + 1 }
      else s
  | CEvent.incr =>
      match s.passed with
      | 0 => s
      | p + 1 =>
          { count := s.count + 1, passed := p, monitors := s.monitors + 1 }
  | CEvent.insertFail =>
      match s.passed with
      | 0 => s
      | p + 1 => { s with passed := p }
  | CEvent.fire =>
      match s.monitors with
      | 0 => s
      | m + 1 => { s with count := s.count - 1, monitors := m }
  | CEvent.fireFail =>
      match s.monitors with
      | 0 => s
      | m + 1 => { s with monitors := m }
  | CEvent.recoverFuture =>
      if s.count < getMaxConcurrentAuctions env then
        { s with count := s.count + 1, monitors := s.monitors + 1 }
      else s
  | CEvent.recoverOverdue =>
      if s.count < getMaxConcurrentAuctions env then
        { s with count := s.count + 1 }
      else s

/-- The counter state of a fresh repository (`NewAuctionRepository` sets
the counter to zero). -/
def initCounterState : CounterState :=
  { count := 0, passed := 0, monitors := 0 }

/-- Run a sequence of atomic counter sections from the initial state. -/
def runEvents (env : String → String) (evs : List CEvent) : CounterState :=
  evs.foldl (cstep env) initCounterState

/-- A counter state is reachable when some interleaving of the atomic
sections produces it. -/
def CounterReachable (s : CounterState) : Prop :=
  ∃ evs : List CEvent, runEvents emptyEnv evs = s

/-- The whole-operation (serialized) events: each `CreateAuction` call
runs its check, insert and increment with no interference in between;
the remaining events are single atomic sections exactly as in `CEvent`. -/
inductive SEvent
  | createOk
  | createInsertFail
  | fire
  | fireFail
  | recoverFuture
  | recoverOverdue
  deriving DecidableEq

/-- One serialized whole operation on the counter state. -/
def sstep (env : String → String) (s : CounterState) : SEvent → CounterState
  | SEvent.createOk =>
      if s.count < getMaxConcurrentAuctions env then
        { s with count := s.count + 1, monitors := s.monitors + 1 }
      else s
  | SEvent.createInsertFail => s
  | SEvent.fire =>
      match s.monitors with
      | 0 => s
      | m + 1 => { s with count := s.count - 1, monitors := m }
  | SEvent.fireFail =>
      match s.monitors with
      | 0 => s
      | m + 1 => { s with monitors := m }
  | SEvent.recoverFuture =>
      if s.count < getMaxConcurrentAuctions env then
        { s with count := s.count + 1, monitors := s.monitors + 1 }
      else s
  | SEvent.recoverOverdue =>
      if s.count < getMaxConcurrentAuctions env then
        { s with count := s.count + 1 }
      else s

/-- Run a sequence of serialized operations from the initial state. -/
def runSerial (env : String → String) (evs : List SEvent) : CounterState :=
  evs.foldl (sstep env) initCounterState

/-- The store-changing operations the core itself issues over an
auction's lifetime: `create` inserts the record built by `CreateAuction`,
and `close` is the `UpdateAuctionStatus _ Completed` call made by a
firing monitor, by the immediate close of an overdue monitor, or by the
recovery loop's capacity force-close — every internal status write passes
`Completed`. -/
inductive LifecycleOp
  | create (a : AuctionEntity) (endTime : Int)
  | close (auctionId : String)

/-- Apply one core-issued operation to the store. -/
def applyLifecycleOp (store : List AuctionRecord) : LifecycleOp → List AuctionRecord
  | LifecycleOp.create a endTime => store ++ [recordOfEntity a endTime]
  | LifecycleOp.close auctionId =>
      mongoUpdateStatus auctionId AuctionStatus.Completed store

/-- The interleaving that drives the counter past the ceiling: repeat
`check` followed by `incr` the given number of times. -/
def checkIncrPairs : Nat → List CEvent
  | 0 => []
  | n + 1 => CEvent.check :: CEvent.incr :: checkIncrPairs n

/-- 49 completed `CreateAuction` calls, then two concurrent calls that
both pass `checkActiveAuctionsLimit` at a counter of 49 before either
reaches its increment section. -/
def exceedTrace : List CEvent :=
  checkIncrPairs 49 ++
    [CEvent.check, CEvent.check, CEvent.incr, CEvent.incr]

/-- Every decrement of the counter is performed by an armed monitor, and
every armed monitor was created by an increment, so the counter always
dominates the number of armed monitors. -/
def CounterInv (s : CounterState) : Prop :=
  (s.monitors : Int) ≤ s.count

/-- In the serialized semantics the counter additionally never exceeds
the ceiling. -/
def SerialInv (env : String → String) (s : CounterState) : Prop :=
  0 ≤ s.count ∧ s.count ≤ getMaxConcurrentAuctions env ∧
    (s.monitors : Int) ≤ s.count

/-- Pointwise frame relation between a record and its image under
`mongoUpdateStatus`: the id and every payload field are unchanged, the
matched record gets the new status, and an unmatched record is untouched. -/
def statusFrameRel (auctionId : String) (status : AuctionStatus)
    (r q : AuctionRecord) : Prop :=
  q.id = r.id ∧ q.productName = r.productName ∧ q.category = r.category ∧
    q.description = r.description ∧ q.condition = r.condition ∧
    q.timestamp = r.timestamp ∧ q.endTime = r.endTime ∧
    (r.id = auctionId → q.status = status) ∧ (¬ r.id = auctionId → q = r)

/-- An environment configuring a concurrency ceiling of 10, as the
repository's README documents (`MAX_CONCURRENT_AUCTIONS=10`). -/
def ceilingEnv : String → String :=
  fun k => if k = "MAX_CONCURRENT_AUCTIONS" then "10" else ""

/-- An environment with `AUCTION_INTERVAL=-5s`, which Go's
`time.ParseDuration` accepts without error. -/
def negIntervalEnv : String → String :=
  fun k => if k = "AUCTION_INTERVAL" then "-5s" else ""

/-- An environment with `AUCTION_INTERVAL=3s`, as in the repository's
auto-close test. -/
def threeSecEnv : String → String :=
  fun k => if k = "AUCTION_INTERVAL" then "3s" else ""

/-- A sample auction entity as built at creation time (status `Active`,
created at time 0). -/
def sampleEntity : AuctionEntity :=
  { id := "auction-1", productName := "Produto AutoClose Test",
    category := "Eletrônicos", description := "Teste de fechamento",
    condition := 0, status := AuctionStatus.Active, timestamp := 0 }

/-- A persisted record that is already Completed. -/
def completedRec : AuctionRecord :=
  { id := "auction-1", productName := "Produto AutoClose Test",
    category := "Eletrônicos", description := "Teste de fechamento",
    condition := 0, status := AuctionStatus.Completed, timestamp := 0,
    endTime := 3000000000 }

/-- A persisted record that is still Active. -/
def activeRec : AuctionRecord :=
  { id := "auction-1", productName := "Produto AutoClose Test",
    category := "Eletrônicos", description := "Teste de fechamento",
    condition := 0, status := AuctionStatus.Active, timestamp := 0,
    endTime := 3000000000 }

/-- A persisted Active record whose end time is one hour in the past at
a restart happening at time 0 (the spec's Scenario C shape). -/
def overdueRec : AuctionRecord :=
  { id := "expired-1", productName := "Expired Test Product",
    category := "Electronics", description := "expired before restart",
    condition := 0, status := AuctionStatus.Active,
    timestamp := -7200000000000, endTime := -3600000000000 }

/-- A persisted Active record whose end time is five seconds in the
future at a restart happening at time 0 (the spec's Scenario D shape). -/
def futureRec : AuctionRecord :=
  { id := "auction-f", productName := "Recovery Test Product",
    category := "Electronics", description := "recovers with remaining time",
    condition := 0, status := AuctionStatus.Active,
    timestamp := -2000000000, endTime := 5000000000 }

theorem statusOf_nil (i : String) : statusOf [] i = none := rfl

theorem statusOf_cons (r : AuctionRecord) (s : List AuctionRecord) (i : String) :
    statusOf (r :: s) i = if r.id = i then some r.status else statusOf s i := by
  by_cases h : r.id = i <;> simp [statusOf, List.find?_cons, h]

theorem statusOf_append_of_some {s l : List AuctionRecord} {i : String}
    {c : AuctionStatus} (h : statusOf s i = some c) :
    statusOf (s ++ l) i = some c := by
  induction s with
  | nil => simp [statusOf_nil] at h
  | cons r s ih =>
    rw [statusOf_cons] at h
    rw [List.cons_append, statusOf_cons]
    by_cases hr : r.id = i
    · simpa [hr] using h
    · simp only [hr, if_false] at h ⊢
      exact ih h

theorem mongoUpdateStatus_cons (x : String) (st : AuctionStatus)
    (r : AuctionRecord) (s : List AuctionRecord) :
    mongoUpdateStatus x st (r :: s) =
      (if r.id = x then { r with status := st } else r) :: mongoUpdateStatus x st s := by
  simp [mongoUpdateStatus]

theorem statusOf_mongoUpdateStatus (x : String) (st : AuctionStatus)
    (s : List AuctionRecord) (i : String) :
    statusOf (mongoUpdateStatus x st s) i =
      (statusOf s i).map fun c => if i = x then st else c := by
  induction s with
  | nil => rfl
  | cons r s ih =>
    rw [mongoUpdateStatus_cons, statusOf_cons, statusOf_cons]
    by_cases hr : r.id = i
    · by_cases hx : r.id = x
      · have hix : i = x := hr ▸ hx
        simp [hx, hr, hix]
      · have hix : ¬ i = x := fun h => hx (hr.trans h)
        simp [hx, hr, hix]
    · by_cases hx : r.id = x
      · have hxi : ¬ x = i := fun h => hr (hx.trans h)
        simp [hx, hr, hxi, ih]
      · simp [hx, hr, ih]

theorem mongoUpdateStatus_idem (x : String) (st : AuctionStatus)
    (s : List AuctionRecord) :
    mongoUpdateStatus x st (mongoUpdateStatus x st s) = mongoUpdateStatus x st s := by
  induction s with
  | nil => rfl
  | cons r s ih =>
    rw [mongoUpdateStatus_cons, mongoUpdateStatus_cons]
    by_cases hx : r.id = x
    · simp [mongoUpdateStatus_cons, hx, ih]
    · simp [mongoUpdateStatus_cons, hx, ih]

theorem mongoUpdateStatus_of_absent {x : String} {st : AuctionStatus}
    {s : List AuctionRecord} (h : ∀ r ∈ s, ¬ r.id = x) :
    mongoUpdateStatus x st s = s := by
  induction s with
  | nil => rfl
  | cons r s ih =>
    rw [mongoUpdateStatus_cons]
    have hr : ¬ r.id = x := h r (List.mem_cons_self r s)
    simp only [hr, if_false]
    rw [ih fun q hq => h q (List.mem_cons_of_mem r hq)]

theorem mongoUpdateStatus_endTimes (x : String) (st : AuctionStatus)
    (s : List AuctionRecord) :
    (mongoUpdateStatus x st s).map AuctionRecord.endTime =
      s.map AuctionRecord.endTime := by
  induction s with
  | nil => rfl
  | cons r s ih =>
    rw [mongoUpdateStatus_cons]
    by_cases hx : r.id = x <;> simp [hx, ih]

theorem cstep_preserves_inv (env : String → String) (s : CounterState)
    (e : CEvent) (h : CounterInv s) : CounterInv (cstep env s e) := by
  cases e
  case check =>
    by_cases hc : s.count < getMaxConcurrentAuctions env <;>
      simp [cstep, CounterInv, hc] at h ⊢ <;> omega
  case incr =>
    rcases hp : s.passed with _ | p <;>
      simp [cstep, CounterInv, hp] at h ⊢ <;> omega
  case insertFail =>
    rcases hp : s.passed with _ | p <;>
      simp [cstep, CounterInv, hp] at h ⊢ <;> omega
  case fire =>
    rcases hm : s.monitors with _ | m <;>
      simp [cstep, CounterInv, hm] at h ⊢ <;> omega
  case fireFail =>
    rcases hm : s.monitors with _ | m <;>
      simp [cstep, CounterInv, hm] at h ⊢ <;> omega
  case recoverFuture =>
    by_cases hc : s.count < getMaxConcurrentAuctions env <;>
      simp [cstep, CounterInv, hc] at h ⊢ <;> omega
  case recoverOverdue =>
    by_cases hc : s.count < getMaxConcurrentAuctions env <;>
      simp [cstep, CounterInv, hc] at h ⊢ <;> omega

theorem foldl_cstep_preserves_inv (env : String → String)
    (evs : List CEvent) :
    ∀ s : CounterState, CounterInv s → CounterInv (evs.foldl (cstep env) s) := by
  induction evs with
  | nil => intro s h; exact h
  | cons e evs ih =>
    intro s h
    exact ih (cstep env s e) (cstep_preserves_inv env s e h)

theorem sstep_preserves_inv (env : String → String) (s : CounterState)
    (e : SEvent) (h : SerialInv env s) : SerialInv env (sstep env s e) := by
  cases e
  case createOk =>
    by_cases hc : s.count < getMaxConcurrentAuctions env <;>
      simp [sstep, SerialInv, hc] at h ⊢ <;> omega
  case createInsertFail => exact h
  case fire =>
    rcases hm : s.monitors with _ | m <;>
      simp [sstep, SerialInv, hm] at h ⊢ <;> omega
  case fireFail =>
    rcases hm : s.monitors with _ | m <;>
      simp [sstep, SerialInv, hm] at h ⊢ <;> omega
  case recoverFuture =>
    by_cases hc : s.count < getMaxConcurrentAuctions env <;>
      simp [sstep, SerialInv, hc] at h ⊢ <;> omega
  case recoverOverdue =>
    by_cases hc : s.count < getMaxConcurrentAuctions env <;>
      simp [sstep, SerialInv, hc] at h ⊢ <;> omega

theorem foldl_sstep_preserves_inv (env : String → String)
    (evs : List SEvent) :
    ∀ s : CounterState, SerialInv env s → SerialInv env (evs.foldl (sstep env) s) := by
  induction evs with
  | nil => intro s h; exact h
  | cons e evs ih =>
    intro s h
    exact ih (sstep env s e) (sstep_preserves_inv env s e h)

theorem recoveryScan_count (env : String → String) (l : List AuctionRecord) :
    ∀ st : RecoveryResult, st.count ≤ getMaxConcurrentAuctions env →
      (l.foldl (recoveryScanStep env) st).count =
        min (st.count + (l.length : Int)) (getMaxConcurrentAuctions env) := by
  induction l with
  | nil =>
    intro st h
    simp only [List.foldl_nil, List.length_nil, Int.natCast_zero, add_zero]
    omega
  | cons a l ih =>
    intro st h
    rw [List.foldl_cons,
      ih (recoveryScanStep env st a) (by simp [recoveryScanStep]; split <;> simp <;> omega)]
    by_cases hlt : st.count < getMaxConcurrentAuctions env <;>
      simp [recoveryScanStep, hlt, List.length_cons] <;> push_cast <;> omega

theorem runOverdueAux_all_completed (now : Int) :
    ∀ (ps : List (String × Int)) (store : List AuctionRecord),
      (∀ p ∈ ps, p.2 ≤ now) →
      (∀ r ∈ store, r.status = AuctionStatus.Completed ∨ r.id ∈ ps.map Prod.fst) →
      ∀ r ∈ runOverdueAux now ps store, r.status = AuctionStatus.Completed := by
  intro ps
  induction ps with
  | nil =>
    intro store _ hcov r hr
    simp only [runOverdueAux, List.foldl_nil] at hr
    rcases hcov r hr with h | h
    · exact h
    · simp at h
  | cons p ps ih =>
    intro store hov hcov r hr
    have hp : p.2 ≤ now := hov p (List.mem_cons_self p ps)
    have hact : startIndividualAuctionMonitorWithEndTime p.2 now =
        MonitorAction.immediateClose := by
      simp only [startIndividualAuctionMonitorWithEndTime, if_pos (by omega : p.2 - now ≤ 0)]
    have hfold : runOverdueAux now (p :: ps) store =
        runOverdueAux now ps (mongoUpdateStatus p.1 AuctionStatus.Completed store) := by
      simp only [runOverdueAux, List.foldl_cons, hact]
    rw [hfold] at hr
    refine ih (mongoUpdateStatus p.1 AuctionStatus.Completed store)
      (fun q hq => hov q (List.mem_cons_of_mem p hq)) ?_ r hr
    intro r1 hr1
    simp only [mongoUpdateStatus] at hr1
    rcases List.mem_map.mp hr1 with ⟨r0, hr0, hr0eq⟩
    by_cases hid : r0.id = p.1
    · left
      rw [← hr0eq]
      simp [hid]
    · have hkeep : r1 = r0 := by rw [← hr0eq]; simp [hid]
      rw [hkeep]
      rcases hcov r0 hr0 with h | h
      · left; exact h
      · rcases List.mem_map.mp h with ⟨q, hq, hqeq⟩
        rcases List.mem_cons.mp hq with rfl | hq2
        · exact absurd hqeq.symm (by simpa using hid)
        · right
          exact List.mem_map.mpr ⟨q, hq2, hqeq⟩

theorem recoveryScan_coverage (env : String → String) (now : Int) :
    ∀ (l : List AuctionRecord) (st : RecoveryResult),
      (∀ a ∈ l, a.endTime ≤ now) →
      (∀ p ∈ st.pending, p.2 ≤ now) →
      (∀ r ∈ st.store, r.status = AuctionStatus.Completed ∨
          r.id ∈ st.pending.map Prod.fst ∨ r.id ∈ l.map AuctionRecord.id) →
      (∀ p ∈ (l.foldl (recoveryScanStep env) st).pending, p.2 ≤ now) ∧
        (∀ r ∈ (l.foldl (recoveryScanStep env) st).store,
          r.status = AuctionStatus.Completed ∨
            r.id ∈ (l.foldl (recoveryScanStep env) st).pending.map Prod.fst) := by
  intro l
  induction l with
  | nil =>
    intro st _ hpend hcov
    refine ⟨hpend, fun r hr => ?_⟩
    rcases hcov r hr with h | h | h
    · left; exact h
    · right; exact h
    · simp at h
  | cons a l ih =>
    intro st hl hpend hcov
    have ha : a.endTime ≤ now := hl a (List.mem_cons_self a l)
    rw [List.foldl_cons]
    by_cases hlt : st.count < getMaxConcurrentAuctions env
    · have hstep : recoveryScanStep env st a =
          { st with count := st.count + 1,
                    pending := st.pending ++ [(a.id, a.endTime)] } := by
        simp [recoveryScanStep, hlt]
      rw [hstep]
      refine ih _ (fun q hq => hl q (List.mem_cons_of_mem a hq)) ?_ ?_
      · intro p hp
        rcases List.mem_append.mp hp with h | h
        · exact hpend p h
        · simp at h
          simpa [h] using ha
      · intro r hr
        rcases hcov r hr with h | h | h
        · left; exact h
        · right; left
          simp only [List.map_append]
          exact List.mem_append.mpr (Or.inl h)
        · rcases List.mem_map.mp h with ⟨q, hq, hqeq⟩
          rcases List.mem_cons.mp hq with rfl | hq2
          · right; left
            simp [← hqeq]
          · right; right
            exact List.mem_map.mpr ⟨q, hq2, hqeq⟩
    · have hstep : recoveryScanStep env st a =
          { st with store := mongoUpdateStatus a.id AuctionStatus.Completed st.store } := by
        simp [recoveryScanStep, hlt]
      rw [hstep]
      refine ih _ (fun q hq => hl q (List.mem_cons_of_mem a hq)) hpend ?_
      intro r1 hr1
      simp only [mongoUpdateStatus] at hr1
      rcases List.mem_map.mp hr1 with ⟨r0, hr0, hr0eq⟩
      by_cases hid : r0.id = a.id
      · left
        rw [← hr0eq]
        simp [hid]
      · have hkeep : r1 = r0 := by rw [← hr0eq]; simp [hid]
        rw [hkeep]
        rcases hcov r0 hr0 with h | h | h
        · left; exact h
        · right; left; exact h
        · rcases List.mem_map.mp h with ⟨q, hq, hqeq⟩
          rcases List.mem_cons.mp hq with rfl | hq2
          · exact absurd hqeq.symm (by simpa using hid)
          · right; right
            exact List.mem_map.mpr ⟨q, hq2, hqeq⟩

/-- Claim C6: the claim says the concurrency ceiling is read from
configuration at process start (default 50) and that the value used by
admission and recovery equals the configured value.  The source's
`getMaxConcurrentAuctions` returns the constant 50 for every environment:
with `MAX_CONCURRENT_AUCTIONS=10` configured it still yields 50, and the
admission check still passes at a counter of 10.  This contradicts the
repository's own README, which documents the variable as configurable,
so the code, not the claim, is at fault. -/
theorem max_concurrent_is_hardcoded_fifty :
    (∀ env : String → String, getMaxConcurrentAuctions env = 50) ∧
      getMaxConcurrentAuctions ceilingEnv = 50 ∧
      ¬ getMaxConcurrentAuctions ceilingEnv = 10 ∧
      checkActiveAuctionsLimit ceilingEnv 10 = true :=
  ⟨fun _ => rfl, rfl, by decide, by decide⟩

/-- Claim C8: `CreateAuction` is atomic with respect to both failure
modes.  When the limit check denies admission it returns the capacity
error with the store, the counter and the armed-timer flag untouched;
when the insert fails after the check passed it returns the insert error,
again with store and counter untouched (nothing to release: the counter
is only incremented after a successful insert). -/
theorem create_failure_leaves_no_partial_state (env : String → String)
    (a : AuctionEntity) (store : List AuctionRecord) (count : Int)
    (insertFails : Bool) :
    (checkActiveAuctionsLimit env count = false →
      CreateAuction env insertFails a store count =
        { err := some capacityLimitError, store := store, count := count,
          timerArmed := false }) ∧
    (checkActiveAuctionsLimit env count = true →
      CreateAuction env true a store count =
        { err := some insertFailedError, store := store, count := count,
          timerArmed := false }) := by
  constructor
  · intro h
    simp [CreateAuction, h]
  · intro h
    simp [CreateAuction, h]

theorem create_failure_leaves_no_partial_state_witness :
    CreateAuction emptyEnv false sampleEntity [] 50 =
      { err := some capacityLimitError, store := [], count := 50,
        timerArmed := false } ∧
    CreateAuction emptyEnv true sampleEntity [] 0 =
      { err := some insertFailedError, store := [], count := 0,
        timerArmed := false } :=
  ⟨(create_failure_leaves_no_partial_state emptyEnv sampleEntity [] 50 false).1
      (by decide),
   (create_failure_leaves_no_partial_state emptyEnv sampleEntity [] 0 true).2
      (by decide)⟩

/-- Claim C9: the Completed transition is idempotent and total on ids —
updating an already Completed record succeeds and leaves it Completed,
updating an absent id is a no-op success, applying the update twice
equals applying it once, and an error occurs exactly when the store call
itself fails. -/
theorem update_status_idempotent_and_total (store : List AuctionRecord)
    (auctionId : String) :
    (statusOf store auctionId = some AuctionStatus.Completed →
      UpdateAuctionStatus false auctionId AuctionStatus.Completed store =
        Except.ok (mongoUpdateStatus auctionId AuctionStatus.Completed store) ∧
      statusOf (mongoUpdateStatus auctionId AuctionStatus.Completed store)
          auctionId = some AuctionStatus.Completed) ∧
    ((∀ r ∈ store, ¬ r.id = auctionId) →
      UpdateAuctionStatus false auctionId AuctionStatus.Completed store =
        Except.ok store) ∧
    mongoUpdateStatus auctionId AuctionStatus.Completed
        (mongoUpdateStatus auctionId AuctionStatus.Completed store) =
      mongoUpdateStatus auctionId AuctionStatus.Completed store ∧
    (∀ (connFail : Bool) (st : AuctionStatus),
      (∃ e, UpdateAuctionStatus connFail auctionId st store = Except.error e) ↔
        connFail = true) := by
  refine ⟨?_, ?_, mongoUpdateStatus_idem auctionId AuctionStatus.Completed store, ?_⟩
  · intro h
    refine ⟨rfl, ?_⟩
    rw [statusOf_mongoUpdateStatus, h]
    simp
  · intro h
    simp [UpdateAuctionStatus, mongoUpdateStatus_of_absent h]
  · intro connFail st
    cases connFail <;> simp [UpdateAuctionStatus]

theorem update_status_idempotent_and_total_witness :
    statusOf (mongoUpdateStatus "auction-1" AuctionStatus.Completed
        [completedRec]) "auction-1" = some AuctionStatus.Completed ∧
    UpdateAuctionStatus false "missing-id" AuctionStatus.Completed
        [completedRec] = Except.ok [completedRec] :=
  ⟨((update_status_idempotent_and_total [completedRec] "auction-1").1
      (by decide)).2,
   (update_status_idempotent_and_total [completedRec] "missing-id").2.1
      (by decide)⟩

/-- Claim C10: `UpdateAuctionStatus` modifies only the status field of
records whose id matches: the id, product name, category, description,
condition, creation timestamp and end time of the matched record are
unchanged, and every other record is untouched — stated pointwise over
the whole store via `List.Forall₂`. -/
theorem update_status_frame_condition (auctionId : String)
    (status : AuctionStatus) (store : List AuctionRecord) :
    List.Forall₂ (statusFrameRel auctionId status) store
      (mongoUpdateStatus auctionId status store) := by
  induction store with
  | nil => exact List.Forall₂.nil
  | cons r s ih =>
    rw [mongoUpdateStatus_cons]
    refine List.Forall₂.cons ?_ ih
    by_cases hid : r.id = auctionId <;> simp [statusFrameRel, hid]

theorem update_status_frame_condition_witness :
    List.Forall₂ (statusFrameRel "auction-1" AuctionStatus.Completed)
      [activeRec, overdueRec]
      (mongoUpdateStatus "auction-1" AuctionStatus.Completed
        [activeRec, overdueRec]) :=
  update_status_frame_condition "auction-1" AuctionStatus.Completed
    [activeRec, overdueRec]

/-- Claim C4: a persisted Active record whose end time is still in the
future at restart is re-admitted by the recovery pass (counter 1,
monitor spawned with the record's end time), its re-armed monitor waits
exactly the remaining duration `endTime - now` — not the full configured
interval — and, on firing, sets the auction Completed and decrements the
counter by one. -/
theorem recovery_future_rearm_remaining (env : String → String)
    (a : AuctionRecord) (now : Int) (store : List AuctionRecord)
    (count : Int) (ha : a.status = AuctionStatus.Active)
    (h : now < a.endTime) :
    handleActiveAuctionsOnRestart env [a] =
      { count := 1, store := [a], pending := [(a.id, a.endTime)] } ∧
    startIndividualAuctionMonitorWithEndTime a.endTime now =
      MonitorAction.waitThenClose (a.endTime - now) ∧
    (applyMonitorFire a.id
        (startIndividualAuctionMonitorWithEndTime a.endTime now)
        store count).2 = count - 1 ∧
    (∀ c, statusOf store a.id = some c →
      statusOf (applyMonitorFire a.id
          (startIndividualAuctionMonitorWithEndTime a.endTime now)
          store count).1 a.id = some AuctionStatus.Completed) := by
  have hact : startIndividualAuctionMonitorWithEndTime a.endTime now =
      MonitorAction.waitThenClose (a.endTime - now) := by
    simp only [startIndividualAuctionMonitorWithEndTime,
      if_neg (by omega : ¬ a.endTime - now ≤ 0)]
  refine ⟨?_, hact, ?_, ?_⟩
  · simp [handleActiveAuctionsOnRestart, findAllActive, ha, recoveryScanStep,
      getMaxConcurrentAuctions]
  · rw [hact]
    simp [applyMonitorFire]
  · intro c hc
    rw [hact]
    simp only [applyMonitorFire]
    rw [statusOf_mongoUpdateStatus, hc]
    simp

theorem recovery_future_rearm_remaining_witness :
    handleActiveAuctionsOnRestart emptyEnv [futureRec] =
      { count := 1, store := [futureRec],
        pending := [(futureRec.id, futureRec.endTime)] } ∧
    startIndividualAuctionMonitorWithEndTime futureRec.endTime 0 =
      MonitorAction.waitThenClose (futureRec.endTime - 0) ∧
    (applyMonitorFire futureRec.id
        (startIndividualAuctionMonitorWithEndTime futureRec.endTime 0)
        [futureRec] 1).2 = 1 - 1 ∧
    statusOf (applyMonitorFire futureRec.id
        (startIndividualAuctionMonitorWithEndTime futureRec.endTime 0)
        [futureRec] 1).1 futureRec.id = some AuctionStatus.Completed := by
  have h := recovery_future_rearm_remaining emptyEnv futureRec 0 [futureRec] 1
    rfl (by decide)
  exact ⟨h.1, h.2.1, h.2.2.1, h.2.2.2 AuctionStatus.Active (by decide)⟩

/-- Claim C5 (counterexample): the claim says no operation of the core's
public interface ever moves a Completed auction back to Active.  The
exported status update takes an arbitrary status: calling
`UpdateAuctionStatus` with `Active` on a store holding a Completed record
succeeds and makes that record Active again. -/
theorem update_status_reopens_completed :
    statusOf [completedRec] "auction-1" = some AuctionStatus.Completed ∧
    UpdateAuctionStatus false "auction-1" AuctionStatus.Active [completedRec] =
      Except.ok (mongoUpdateStatus "auction-1" AuctionStatus.Active
        [completedRec]) ∧
    statusOf (mongoUpdateStatus "auction-1" AuctionStatus.Active
        [completedRec]) "auction-1" = some AuctionStatus.Active :=
  ⟨by decide, rfl, by decide⟩

/-- Claim C5 (amended): every status write the core itself issues —
monitor fires, the overdue immediate close, the recovery force-close —
passes `Completed`, and creation only appends records; under any sequence
of these core-issued operations a Completed auction stays Completed, and
a core-issued close either leaves a record's observed status unchanged or
moves it to Completed, never to Active.  Only the exported status update
called with an explicit `Active` argument can reopen an auction. -/
theorem core_writes_never_reopen_completed (ops : List LifecycleOp)
    (store : List AuctionRecord) (auctionId : String)
    (h : statusOf store auctionId = some AuctionStatus.Completed) :
    statusOf (ops.foldl applyLifecycleOp store) auctionId =
      some AuctionStatus.Completed ∧
    (∀ (x : String) (s0 : List AuctionRecord) (c : AuctionStatus),
      statusOf s0 auctionId = some c →
      statusOf (applyLifecycleOp s0 (LifecycleOp.close x)) auctionId = some c ∨
      statusOf (applyLifecycleOp s0 (LifecycleOp.close x)) auctionId =
        some AuctionStatus.Completed) := by
  constructor
  · induction ops generalizing store with
    | nil => exact h
    | cons op ops ih =>
      rw [List.foldl_cons]
      refine ih (applyLifecycleOp store op) ?_
      cases op with
      | create a endTime => exact statusOf_append_of_some h
      | close x =>
        show statusOf (mongoUpdateStatus x AuctionStatus.Completed store)
            auctionId = some AuctionStatus.Completed
        rw [statusOf_mongoUpdateStatus, h]
        by_cases hix : auctionId = x <;> simp [hix]
  · intro x s0 c hc
    have hupd := statusOf_mongoUpdateStatus x AuctionStatus.Completed s0 auctionId
    by_cases hix : auctionId = x
    · right
      show statusOf (mongoUpdateStatus x AuctionStatus.Completed s0) auctionId =
          some AuctionStatus.Completed
      rw [hupd, hc]
      simp [hix]
    · left
      show statusOf (mongoUpdateStatus x AuctionStatus.Completed s0) auctionId =
          some c
      rw [hupd, hc]
      simp [hix]

theorem core_writes_never_reopen_completed_witness :
    statusOf
      (([LifecycleOp.close "other-id",
         LifecycleOp.create sampleEntity 3000000000,
         LifecycleOp.close "auction-1"]).foldl applyLifecycleOp
        [completedRec]) "auction-1" = some AuctionStatus.Completed :=
  (core_writes_never_reopen_completed
    [LifecycleOp.close "other-id",
     LifecycleOp.create sampleEntity 3000000000,
     LifecycleOp.close "auction-1"]
    [completedRec] "auction-1" (by decide)).1

/-- Claim C7 (counterexample): the claim says `endTime > createdAt` for
every value the duration configuration may take, including values that
parse to zero or negative durations.  With `AUCTION_INTERVAL=-5s` the
parser succeeds with a negative duration, creation succeeds, and the
persisted end time lies strictly before the creation timestamp. -/
theorem negative_interval_breaks_endTime_invariant :
    getAuctionDuration negIntervalEnv = -5000000000 ∧
    (CreateAuction negIntervalEnv false sampleEntity [] 0).err = none ∧
    (CreateAuction negIntervalEnv false sampleEntity [] 0).store =
      [recordOfEntity sampleEntity (-5000000000)] ∧
    (recordOfEntity sampleEntity (-5000000000)).endTime <
      (recordOfEntity sampleEntity (-5000000000)).timestamp :=
  ⟨by decide, by decide, by decide, by decide⟩

/-- Claim C7 (amended): on a successful creation the persisted end time
equals `createdAt + configuredDuration`, computed once at creation —
later status updates never change any record's end time; `endTime >
createdAt` holds whenever the configured duration is positive (in
particular whenever the configured string fails to parse, where the
five-minute default applies), but a configuration parsing to a zero or
negative duration yields `endTime ≤ createdAt`. -/
theorem endTime_computed_once_at_creation (env : String → String)
    (a : AuctionEntity) (store : List AuctionRecord) (count : Int)
    (insertFails : Bool)
    (h : (CreateAuction env insertFails a store count).err = none) :
    (CreateAuction env insertFails a store count).store =
      store ++ [recordOfEntity a (a.timestamp + getAuctionDuration env)] ∧
    (0 < getAuctionDuration env →
      a.timestamp <
        (recordOfEntity a (a.timestamp + getAuctionDuration env)).endTime) ∧
    (parseDuration (env "AUCTION_INTERVAL") = none →
      getAuctionDuration env = 5 * 60000000000) ∧
    (∀ (x : String) (st : AuctionStatus) (s : List AuctionRecord),
      (mongoUpdateStatus x st s).map AuctionRecord.endTime =
        s.map AuctionRecord.endTime) := by
  refine ⟨?_, ?_, ?_, fun x st s => mongoUpdateStatus_endTimes x st s⟩
  · by_cases hc : checkActiveAuctionsLimit env count = true
    · by_cases hi : insertFails
      · exfalso
        simp [CreateAuction, hc, hi] at h
      · simp [CreateAuction, hc, hi]
    · exfalso
      simp [CreateAuction, hc] at h
  · intro hd
    simp only [recordOfEntity]
    omega
  · intro hp
    simp [getAuctionDuration, hp]

theorem endTime_computed_once_at_creation_witness :
    (CreateAuction threeSecEnv false sampleEntity [] 0).store =
      [] ++ [recordOfEntity sampleEntity
        (sampleEntity.timestamp + getAuctionDuration threeSecEnv)] ∧
    sampleEntity.timestamp <
      (recordOfEntity sampleEntity
        (sampleEntity.timestamp + getAuctionDuration threeSecEnv)).endTime := by
  have h := endTime_computed_once_at_creation threeSecEnv sampleEntity [] 0
    false (by decide)
  exact ⟨h.1, h.2.1 (by decide)⟩

set_option maxRecDepth 8000 in
/-- Claim C1 (counterexample): the claim says the admitted count never
exceeds the ceiling of 50 under any interleaving, backed by an atomic
check-and-increment.  In the source the check and the increment are two
separate mutex sections: after 49 completed creations, two concurrent
`CreateAuction` callers can both pass `checkActiveAuctionsLimit` at a
counter of 49 and then both increment, reaching the state with counter
51 > 50. -/
theorem admission_race_exceeds_ceiling :
    ¬ ∀ s : CounterState, CounterReachable s →
        s.count ≤ getMaxConcurrentAuctions emptyEnv := by
  intro hall
  have hreach : CounterReachable { count := 51, passed := 0, monitors := 51 } :=
    ⟨exceedTrace, by decide⟩
  have hle := hall { count := 51, passed := 0, monitors := 51 } hreach
  exact absurd hle (by decide)

/-- Claim C1 (amended): `checkActiveAuctionsLimit` is an atomic check
with no side effect on the counter, and the increment is a separate
atomic section, so the check-and-increment pair is not atomic; when every
`CreateAuction` call runs its check, insert and increment without
interleaving (the serialized semantics), the counter stays within
`0 ≤ count ≤ 50` under every operation sequence, timer fires and the
recovery pass included. -/
theorem serialized_admission_respects_ceiling (env : String → String)
    (evs : List SEvent) (s : CounterState) :
    (0 ≤ (runSerial env evs).count ∧
      (runSerial env evs).count ≤ getMaxConcurrentAuctions env) ∧
    (cstep env s CEvent.check).count = s.count ∧
    (cstep env s CEvent.check).monitors = s.monitors := by
  have hinv := foldl_sstep_preserves_inv env evs initCounterState
    (by constructor <;> simp [initCounterState, getMaxConcurrentAuctions])
  refine ⟨⟨hinv.1, hinv.2.1⟩, ?_, ?_⟩ <;>
    · by_cases hc : s.count < getMaxConcurrentAuctions env <;>
        simp [cstep, hc]

/-- Claim C3 (counterexample): the claim says a release performed in a
state where the count is zero is a defensive no-op leaving the count at
zero.  The source's release is an unguarded decrement: in a state with
count 0 and one armed monitor, the monitor's fire section drives the
count to −1. -/
theorem release_at_zero_not_noop :
    (cstep emptyEnv { count := 0, passed := 0, monitors := 1 }
        CEvent.fire).count = -1 ∧
    ¬ (cstep emptyEnv { count := 0, passed := 0, monitors := 1 }
        CEvent.fire).count = 0 :=
  ⟨by decide, by decide⟩

/-- Claim C3 (amended): the release is an unconditional decrement with no
guard at zero, but it never actually drives the counter negative in any
reachable state: under every interleaving of the atomic sections, the
number of armed monitors — the only sources of decrements — never exceeds
the counter, so the counter stays non-negative. -/
theorem reachable_release_never_negative (env : String → String)
    (evs : List CEvent) :
    ((runEvents env evs).monitors : Int) ≤ (runEvents env evs).count ∧
    0 ≤ (runEvents env evs).count := by
  have hinv := foldl_cstep_preserves_inv env evs initCounterState
    (by simp [CounterInv, initCounterState])
  exact ⟨hinv, le_trans (Int.natCast_nonneg _) hinv⟩

/-- Claim C2 (counterexample): the claim says an overdue record is marked
Completed directly by recovery without being admitted, so that after
recovery the count reflects only records with remaining time.  In the
source the recovery loop increments the counter for every Active record
before looking at its end time: with a single overdue record the record
does end up Completed, but the counter after recovery is 1, not 0, even
though no record has remaining time — and nothing ever decrements it. -/
theorem recovery_overdue_occupies_slot :
    (recoveryWithOverduePhase emptyEnv 0 [overdueRec]).count = 1 ∧
    statusOf (recoveryWithOverduePhase emptyEnv 0 [overdueRec]).store
        "expired-1" = some AuctionStatus.Completed ∧
    (findAllActive [overdueRec]).filter (fun r => 0 < r.endTime - 0) = [] ∧
    ¬ (recoveryWithOverduePhase emptyEnv 0 [overdueRec]).count = 0 :=
  ⟨by decide, by decide, by decide, by decide⟩

/-- Claim C2 (amended): the recovery pass admits every scanned Active
record up to the ceiling before examining its end time; an admitted
overdue record is then marked Completed immediately by its monitor, which
returns without releasing the slot.  For a store of Active, all-overdue
records: after recovery and the overdue closes, every record is
Completed, yet the counter equals min(#records, ceiling) — the overdue
records' slots are consumed and never released. -/
theorem recovery_admits_overdue_and_leaks_slot (env : String → String)
    (now : Int) (store : List AuctionRecord)
    (hact : ∀ r ∈ store, r.status = AuctionStatus.Active)
    (hov : ∀ r ∈ store, r.endTime ≤ now) :
    (recoveryWithOverduePhase env now store).count =
      min ((store.length : Int)) (getMaxConcurrentAuctions env) ∧
    ∀ r ∈ (recoveryWithOverduePhase env now store).store,
      r.status = AuctionStatus.Completed := by
  have hfa : findAllActive store = store := by
    rw [findAllActive, List.filter_eq_self]
    intro r hr
    simp [hact r hr]
  constructor
  · have hcnt := recoveryScan_count env store
      { count := 0, store := store, pending := [] }
      (by simp [getMaxConcurrentAuctions])
    have hsame : (recoveryWithOverduePhase env now store).count =
        (handleActiveAuctionsOnRestart env store).count := rfl
    rw [hsame, handleActiveAuctionsOnRestart, hfa, hcnt]
    simp
  · intro r hr
    have h0 : ∀ p ∈ ([] : List (String × Int)), p.2 ≤ now := by
      intro p hp
      simp at hp
    have hcov0 : ∀ q ∈ store, q.status = AuctionStatus.Completed ∨
        q.id ∈ ([] : List (String × Int)).map Prod.fst ∨
        q.id ∈ store.map AuctionRecord.id := by
      intro q hq
      right; right
      exact List.mem_map.mpr ⟨q, hq, rfl⟩
    have hfin := recoveryScan_coverage env now store
      { count := 0, store := store, pending := [] } hov h0 hcov0
    have hr2 : r ∈ runOverdueAux now
        (store.foldl (recoveryScanStep env)
          { count := 0, store := store, pending := [] }).pending
        (store.foldl (recoveryScanStep env)
          { count := 0, store := store, pending := [] }).store := by
      have : recoveryWithOverduePhase env now store =
          { handleActiveAuctionsOnRestart env store with
            store := runOverdueAux now
              (handleActiveAuctionsOnRestart env store).pending
              (handleActiveAuctionsOnRestart env store).store } := rfl
      rw [this] at hr
      simpa [handleActiveAuctionsOnRestart, hfa] using hr
    exact runOverdueAux_all_completed now _ _ hfin.1 hfin.2 r hr2

theorem recovery_admits_overdue_and_leaks_slot_witness :
    (recoveryWithOverduePhase emptyEnv 0 [overdueRec]).count =
      min ((([overdueRec] : List AuctionRecord).length : Int))
        (getMaxConcurrentAuctions emptyEnv) :=
  (recovery_admits_overdue_and_leaks_slot emptyEnv 0 [overdueRec]
    (by decide) (by decide)).1
